import Mathlib

/-!
Shallow embedding of the SandyBackend document pipeline
(`dispatcher.py`, `extractors/pdf_text.py`, `extractors/gpt_vision.py`,
`preprocess/image_ops.py`, `apis/api_sunat.py`) and proofs about it.

Modelling conventions:
* Python `dict`s holding the extracted invoice fields are modelled as
  association lists `Dict := List (String × String)`; `dget` is `dict.get`.
* The regular expressions of `pdf_text.py` are implemented as explicit
  character-list scans that realise exactly the Python `re` semantics
  (leftmost match, greedy quantifiers with backtracking, lookarounds).
* External effects (the vision LLM, rasterisation, PIL decoding, Tesseract
  OSD, HTTP calls to the tax authority) are inputs of the model: each file
  carries the values those collaborators would return, and the validator is
  an oracle function.  Machine floats of the Python code are modelled as ℚ.
-/

/-- Association-list model of a Python `dict` with string keys and values. -/
abbrev Dict := List (String × String)

/-- Model of Python `dict.get`: first binding of the key, if any. -/
def dget (d : Dict) (k : String) : Option String :=
  (d.find? (fun p => p.1 = k)).map (fun p => p.2)

/-- Python truthiness test `not v` for `v = d.get(k)`: `None` and `""` are falsy. -/
def falsy : Option String → Bool
  | none => true
  | some s => s = ""

/-- Model of Python `x or default` for `x : Optional[str]` (`None` and `""` are falsy). -/
def pyOr (o : Option String) (d : String) : String :=
  match o with
  | some s => if s = "" then d else s
  | none => d

/-- Model of `(x or "")` for `x : Optional[str]`. -/
def pyOrEmpty (o : Option String) : String :=
  match o with
  | some s => s
  | none => ""

/-- Characters stripped by Python `str.strip()` (ASCII whitespace suffices here). -/
def isWS (c : Char) : Bool := c.isWhitespace

/-- Strip whitespace from both ends of a character list. -/
def trimChars (l : List Char) : List Char :=
  ((l.dropWhile isWS).reverse.dropWhile isWS).reverse

/-- Model of Python `str.strip()`. -/
def pyStrip (s : String) : String := String.mk (trimChars s.data)

/-- Model of Python `",".join(xs)`. -/
def joinComma : List String → String
  | [] => ""
  | [x] => x
  | x :: y :: xs => x ++ "," ++ joinComma (y :: xs)

/-- `leadsWith p l` = the character list `l` starts with the pattern `p`. -/
def leadsWith : List Char → List Char → Bool
  | [], _ => true
  | _ :: _, [] => false
  | p :: ps, c :: cs => p = c && leadsWith ps cs

/-- String prefix test built on `leadsWith` (model of `str.startswith`). -/
def sHasPre (s p : String) : Bool := leadsWith p.data s.data

/-- `hasSub pat l` = the pattern occurs as a contiguous run inside `l`
(model of Python `pat in text`). -/
def hasSub (pat : List Char) : List Char → Bool
  | [] => leadsWith pat []
  | c :: cs => leadsWith pat (c :: cs) || hasSub pat cs

/-- Uppercasing used by `_find_codcomp_by_keywords` (`text.upper()`), covering
ASCII letters plus the accented vowels that occur in the keyword list. -/
def pyUpper (c : Char) : Char :=
  if 'a' ≤ c ∧ c ≤ 'z' then Char.ofNat (c.toNat - 32)
  else if c = 'á' then 'Á'
  else if c = 'é' then 'É'
  else if c = 'í' then 'Í'
  else if c = 'ó' then 'Ó'
  else if c = 'ú' then 'Ú'
  else if c = 'ñ' then 'Ñ'
  else c

/-- `pdf_text._find_codcomp_by_keywords`: keyword search over the uppercased
text, first hit wins. -/
def _find_codcomp_by_keywords (text : String) : String :=
  let t := text.data.map pyUpper
  if hasSub "FACTURA".data t then "01"
  else if hasSub "BOLETA".data t then "03"
  else if hasSub "NOTA DE CR".data t || hasSub "NOTA DE CRÉDITO".data t then "07"
  else if hasSub "NOTA DE D".data t || hasSub "NOTA DE DÉBITO".data t then "08"
  else if hasSub "RECIBO POR HONORARIOS".data t then "R1"
  else ""

/-- `pdf_text._norm_monto`: drop spaces, then turn the comma separator into a dot. -/
def _norm_monto (s : String) : String :=
  String.mk ((s.data.filter (fun c => c ≠ ' ')).map (fun c => if c = ',' then '.' else c))

/-- Length of the leading run of decimal digits. -/
def digitRun : List Char → Nat
  | [] => 0
  | c :: cs => if c.isDigit then digitRun cs + 1 else 0

/-- Word character for the `\b` boundary of Python regexes (`[A-Za-z0-9_]`). -/
def isWordChar (c : Char) : Bool := c.isAlphanum || c = '_'

/-- Attempt of `RUC_RE = (?<!\d)(1|2)\d{10}(?!\d)` at the current position
(the caller has already checked the look-behind). -/
def rucTry (l : List Char) : Option String :=
  let m := l.take 11
  if m.length = 11 ∧ (m.headD ' ' = '1' ∨ m.headD ' ' = '2') ∧ m.tail.all Char.isDigit
      ∧ ((l.drop 11).headD ' ').isDigit = false
  then some (String.mk m) else none

/-- Leftmost-match scan for `RUC_RE`; the `Bool` records whether the previous
character was a digit (the `(?<!\d)` look-behind). -/
def rucSearchAux : Bool → List Char → Option String
  | _, [] => none
  | prevD, c :: cs =>
    if prevD then rucSearchAux c.isDigit cs
    else
      match rucTry (c :: cs) with
      | some s => some s
      | none => rucSearchAux c.isDigit cs

/-- `RUC_RE.search(txt)`, returning the matched text. -/
def rucSearch (txt : String) : Option String := rucSearchAux false txt.data

/-- Day alternative `(0[1-9]|[12]\d|3[01])` of `FECHA_RE`. -/
def dayOk (d1 d2 : Char) : Bool :=
  (d1 = '0' && ('1' ≤ d2 && d2 ≤ '9')) ||
  ((d1 = '1' || d1 = '2') && d2.isDigit) ||
  (d1 = '3' && (d2 = '0' || d2 = '1'))

/-- Month alternative `(0[1-9]|1[0-2])` of `FECHA_RE`. -/
def monthOk (m1 m2 : Char) : Bool :=
  (m1 = '0' && ('1' ≤ m2 && m2 ≤ '9')) ||
  (m1 = '1' && (m2 = '0' || m2 = '1' || m2 = '2'))

/-- Attempt of `FECHA_RE = \b(0[1-9]|[12]\d|3[01])/(0[1-9]|1[0-2])/\d{4}\b`
at the current position (look-behind `\b` already checked by the caller). -/
def fechaTry (l : List Char) : Option String :=
  match l with
  | d1 :: d2 :: s1 :: m1 :: m2 :: s2 :: y1 :: y2 :: y3 :: y4 :: rest =>
    if s1 = '/' ∧ s2 = '/' ∧ dayOk d1 d2 ∧ monthOk m1 m2
        ∧ [y1, y2, y3, y4].all Char.isDigit
        ∧ isWordChar (rest.headD ' ') = false
    then some (String.mk [d1, d2, s1, m1, m2, s2, y1, y2, y3, y4]) else none
  | _ => none

/-- Leftmost-match scan for `FECHA_RE`; the `Bool` records whether the previous
character was a word character (so `\b` holds exactly when it is `false`). -/
def fechaSearchAux : Bool → List Char → Option String
  | _, [] => none
  | prevW, c :: cs =>
    if prevW then fechaSearchAux (isWordChar c) cs
    else
      match fechaTry (c :: cs) with
      | some s => some s
      | none => fechaSearchAux (isWordChar c) cs

/-- `FECHA_RE.search(txt)`, returning the matched text. -/
def fechaSearch (txt : String) : Option String := fechaSearchAux false txt.data

/-- Character class `[A-Z0-9]` of `SERIE_NUM_RE`. -/
def isSerieChar (c : Char) : Bool := ('A' ≤ c && c ≤ 'Z') || c.isDigit

/-- Separator class `[-\s]` of `SERIE_NUM_RE`. -/
def isSepChar (c : Char) : Bool := c = '-' || c.isWhitespace

/-- One backtracking attempt of `SERIE_NUM_RE = ([A-Z0-9]{1,4})[-\s]?(\d{1,8})`
with group 1 of length exactly `k`.  The optional separator is greedy; note
that when the character after group 1 is a separator, the empty-separator
alternative can never succeed (a separator is not a digit), so it is omitted. -/
def serieTryK (l : List Char) (k : Nat) : Option (String × String) :=
  let g1 := l.take k
  if g1.length = k ∧ g1.all isSerieChar then
    match l.drop k with
    | [] => none
    | s :: rest2 =>
      if isSepChar s then
        let j := min 8 (digitRun rest2)
        if 1 ≤ j then some (String.mk g1, String.mk (rest2.take j)) else none
      else
        let j := min 8 (digitRun (s :: rest2))
        if 1 ≤ j then some (String.mk g1, String.mk ((s :: rest2).take j)) else none
  else none

/-- Attempt of `SERIE_NUM_RE` at the current position: greedy group 1, so the
lengths 4, 3, 2, 1 are tried in that order. -/
def serieTry (l : List Char) : Option (String × String) :=
  (serieTryK l 4).orElse fun _ =>
    (serieTryK l 3).orElse fun _ =>
      (serieTryK l 2).orElse fun _ => serieTryK l 1

/-- Leftmost-match scan for `SERIE_NUM_RE` (no lookarounds in this pattern). -/
def serieSearchAux : List Char → Option (String × String)
  | [] => none
  | c :: cs =>
    match serieTry (c :: cs) with
    | some p => some p
    | none => serieSearchAux cs

/-- `SERIE_NUM_RE.search(txt.replace("\n", " "))`, returning the two groups. -/
def serieSearch (txt : String) : Option (String × String) :=
  serieSearchAux (txt.data.map (fun c => if c = '\n' then ' ' else c))

/-- Attempt of `MONTO_RE = (?<!\d)(\d{1,7}[.,]\d{2})(?!\d)` at the current
position (look-behind already checked).  As the whole leading digit run must
be consumed before the separator, the greedy `\d{1,7}` succeeds iff the run
has length 1..7 and is followed by `[.,]`, two digits and a non-digit.
Returns the matched text and the remainder of the input after the match. -/
def montoMatch (l : List Char) : Option (String × List Char) :=
  let r := digitRun l
  if 1 ≤ r ∧ r ≤ 7 then
    match l.drop r with
    | sep :: d1 :: d2 :: rest =>
      if (sep = '.' ∨ sep = ',') ∧ d1.isDigit ∧ d2.isDigit
          ∧ ((rest.headD ' ').isDigit = false)
      then some (String.mk (l.take r ++ [sep, d1, d2]), rest) else none
    | _ => none
  else none

/-- `MONTO_RE.findall(txt)`: non-overlapping leftmost matches.  The fuel is the
length of the remaining input; every step consumes at least one character, so
the fuel never runs out before the input does. -/
def montoFindallGo : Nat → Bool → List Char → List String
  | 0, _, _ => []
  | _ + 1, _, [] => []
  | fuel + 1, prevD, c :: cs =>
    if prevD then montoFindallGo fuel c.isDigit cs
    else
      match montoMatch (c :: cs) with
      | some (m, rest) => m :: montoFindallGo fuel true rest
      | none => montoFindallGo fuel c.isDigit cs

/-- `MONTO_RE.findall(txt)`. -/
def montoFindall (txt : String) : List String :=
  montoFindallGo txt.data.length false txt.data

/-- The six keys of the extracted-fields dict built by both extractors. -/
def allKeys : List String :=
  ["numRuc", "codComp", "numeroSerie", "numero", "fechaEmision", "monto"]

/-- The five required keys checked by both pipelines (`monto` is not required). -/
def requiredKeys : List String :=
  ["numRuc", "codComp", "numeroSerie", "numero", "fechaEmision"]

/-- `[k for k in [...] if not comp.get(k)]` — the missing required fields. -/
def missingFields (comp : Dict) : List String :=
  requiredKeys.filter (fun k => falsy (dget comp k))

/-- The per-page field extraction of `pdf_text.extract_from_pdf_bytes`
(lines 66–89): builds the `comp` dict from the page text. -/
def extractComp (txt : String) : Dict :=
  let numRuc := (rucSearch txt).getD ""
  let fecha := (fechaSearch txt).getD ""
  let codComp := _find_codcomp_by_keywords txt
  let sn := (serieSearch txt).getD ("", "")
  let monto := match (montoFindall txt).getLast? with
    | some m => _norm_monto m
    | none => ""
  [("numRuc", numRuc), ("codComp", codComp), ("numeroSerie", sn.1),
   ("numero", sn.2), ("fechaEmision", fecha), ("monto", monto)]


/-- Provenance record (`origen` dicts of `dispatcher.py`); keys that a given
item does not carry are `none`. -/
structure Origen where
  filename : String
  mime : Option String
  pageIndex : Option Nat
  sha : Option String
deriving DecidableEq

/-- `pdf_text.PdfItemResult`. -/
structure PdfItemResult where
  index : Nat
  pageIndex : Nat
  estado : Bool
  comp : Option Dict
  mensaje : Option String
  origen : Option Origen
deriving DecidableEq

/-- Body of the per-page loop of `extract_from_pdf_bytes` for page `i` with
embedded text `txt` (an extraction failure or an absent text layer both yield
`txt = ""`).  Since exactly one result is appended per page, the running
`len(results)` equals the page number `i`. -/
def pageResult (fn : String) (i : Nat) (txt : String) : PdfItemResult :=
  let origen : Origen := ⟨fn, some "application/pdf", some i, none⟩
  if txt.data.all isWS then
    ⟨i, i, false, none, some "pdf_sin_texto_embebido", some origen⟩
  else
    let comp := extractComp txt
    let faltantes := missingFields comp
    if faltantes.isEmpty then
      ⟨i, i, true, some comp, none, some origen⟩
    else
      ⟨i, i, false, none, some ("campos_faltantes:" ++ joinComma faltantes), some origen⟩

/-- The page loop of `extract_from_pdf_bytes`, starting at page `n`. -/
def pdfPageResults (fn : String) : Nat → List String → List PdfItemResult
  | _, [] => []
  | n, t :: ts => pageResult fn n t :: pdfPageResults fn (n + 1) ts

/-- `pdf_text.extract_from_pdf_bytes`, with the PDF abstracted to the list of
its pages' embedded texts. -/
def extract_from_pdf_bytes (fn : String) (pages : List String) : List PdfItemResult :=
  pdfPageResults fn 0 pages

/-! ## Image normalizer (`preprocess/image_ops.py`)

The pixel content of an image is outside the model; an image is its size.
Whatever PIL / OpenCV / Tesseract would compute from the pixels is supplied
by a `ProcEnv` environment. -/

/-- An image, abstracted to its dimensions. -/
structure PImage where
  w : Nat
  h : Nat
deriving DecidableEq

/-- `image_ops.PreprocessMeta`. -/
structure PMeta where
  steps : List String
  exif_applied : Bool
  osd_angle : Option Int
  osd_conf : Option ℚ
  rotated_final : Option Int
  width : Option Nat
  height : Option Nat
deriving DecidableEq

/-- Environment of one `process_image` run: the results of the external
image primitives on this particular input.
* `decoded = none` models `PIL.Image.open` raising on undecodable bytes.
* `exifOut` is the size of `ImageOps.exif_transpose`'s result.
* `osd = none` models `pytesseract.image_to_osd` raising (caught in code).
* `coordsEmpty` / `rawAngle` are `coords.size == 0` and the `minAreaRect`
  angle inside `_deskew`. -/
structure ProcEnv where
  decoded : Option PImage
  exifOut : PImage
  osd : Option (Int × ℚ)
  coordsEmpty : Bool
  rawAngle : ℚ
deriving DecidableEq

/-- Output image of `process_image`: final size plus the encoding chosen by
`out.save(buf, format="PNG")`. -/
structure OutImg where
  w : Nat
  h : Nat
  format : String
deriving DecidableEq

/-- `image_ops._apply_exif`: replaces the image by the EXIF-transposed one and
records whether the size changed. -/
def _apply_exif (exifOut : PImage) (img : PImage) (meta : PMeta) : PImage × PMeta :=
  if exifOut = img then
    (exifOut, { meta with exif_applied := false })
  else
    (exifOut, { meta with exif_applied := true, steps := meta.steps ++ ["exif_transpose"] })

/-- `image_ops.rotate_by_angle`.  `process_image` only ever calls it with
90/180/270 (guarded), where PIL transposes: 90 and 270 swap the sides, 180
keeps them; the `expand=True` branch for other angles is outside the model
and represented by the unchanged size. -/
def rotate_by_angle (img : PImage) (angle : Int) (meta : PMeta) : PImage × PMeta :=
  if angle % 360 = 0 then (img, meta)
  else
    let img2 := if angle % 180 = 0 then img else PImage.mk img.h img.w
    (img2, { meta with
      rotated_final := some (meta.rotated_final.getD 0 + angle),
      steps := meta.steps ++ ["rotate_" ++ toString angle] })

/-- `image_ops._basic_enhance`: grayscale + median + unsharp mask; size is kept. -/
def _basic_enhance (img : PImage) (meta : PMeta) : PImage × PMeta :=
  (img, { meta with steps := meta.steps ++ ["enhance_basic"] })

/-- `image_ops._normalize_size` with the default cap `max_side = 1800`:
`scale = min(1.0, 1800 / max(h, w))`, resize only when `scale < 1`;
Python's float arithmetic and `int(...)` truncation are modelled as exact
rationals with `Nat.floor` (the scaled values are non-negative). -/
def _normalize_size (img : PImage) : PImage :=
  let m := max img.h img.w
  let scale : ℚ := min 1 ((1800 : ℚ) / (m : ℚ))
  if scale < 1 then ⟨⌊(img.w : ℚ) * scale⌋₊, ⌊(img.h : ℚ) * scale⌋₊⟩ else img

/-- `image_ops._adaptive_binarize`: thresholding keeps the size. -/
def _adaptive_binarize (img : PImage) (meta : PMeta) : PImage × PMeta :=
  (img, { meta with steps := meta.steps ++ ["adaptive_binarize"] })

/-- The `minAreaRect` angle adjustment at the top of `_deskew`. -/
def deskewAdj (raw : ℚ) : ℚ := if raw < -45 then 90 + raw else raw

/-- `image_ops._deskew` (`max_angle = 5.0`): skipped when there are no
foreground pixels or when the adjusted angle is below 0.5 or above 5 in
absolute value; `warpAffine` keeps the size.  The step label's `%.2f`
formatting is abstracted to `toString`. -/
def _deskew (img : PImage) (coordsEmpty : Bool) (raw : ℚ) (meta : PMeta) : PImage × PMeta :=
  if coordsEmpty then (img, meta)
  else
    let angle := deskewAdj raw
    if |angle| < 1 / 2 ∨ 5 < |angle| then (img, meta)
    else (img, { meta with steps := meta.steps ++ ["deskew_" ++ toString angle] })

/-- The OSD-rotation block of `process_image` (lines 124–128): rotate only
when OSD produced a result, the confidence is at least 3.0 and the angle is
one of 90/180/270 (the `angle != 0` inner guard). -/
def osdRotate (osd : Option (Int × ℚ)) (img : PImage) (meta : PMeta) : PImage × PMeta :=
  match osd with
  | some ac =>
    if 3 ≤ ac.2 ∧ (ac.1 = 0 ∨ ac.1 = 90 ∨ ac.1 = 180 ∨ ac.1 = 270) ∧ ac.1 ≠ 0
    then rotate_by_angle img ac.1 meta
    else (img, meta)
  | none => (img, meta)

/-- `image_ops.process_image`.  Returns `.error` when `Image.open` raises
(undecodable bytes); all later steps of the code either cannot raise in the
model or (OSD) catch their exceptions. -/
def process_image (env : ProcEnv) : Except String (OutImg × PMeta) :=
  match env.decoded with
  | none => .error "cannot identify image file"
  | some img0 =>
    let meta0 : PMeta := ⟨[], false, none, none, none, some img0.w, some img0.h⟩
    let s1 := _apply_exif env.exifOut img0 meta0
    let meta2 := { s1.2 with
      osd_angle := env.osd.map Prod.fst, osd_conf := env.osd.map Prod.snd }
    let s2 := osdRotate env.osd s1.1 meta2
    let s3 := _basic_enhance s2.1 s2.2
    let img4 := _normalize_size s3.1
    let s4 := _adaptive_binarize img4 s3.2
    let s5 := _deskew s4.1 env.coordsEmpty env.rawAngle s4.2
    .ok (⟨s5.1.w, s5.1.h, "PNG"⟩, s5.2)

/-! ## Vision extractor (`extractors/gpt_vision.py`) and validator client
(`apis/api_sunat.py`) -/

/-- Tail of `GptVision.extract` (lines 96–99): normalises the JSON object
returned by the model to a dict with exactly the six expected keys, empty
string for anything missing.  The JSON object itself is an input. -/
def gptNormalize (data : Dict) : Dict :=
  allKeys.map (fun k =>
    (k, match dget data k with
        | some v => pyStrip v
        | none => ""))

/-- `SunatClient._build_body`: note that the issuer tax id is read from the
key `numRucE`, and `monto` is attached only when non-empty after stripping. -/
def _build_body (comp : Dict) : Dict :=
  let body : Dict :=
    [("numRuc", pyStrip (pyOrEmpty (dget comp "numRucE"))),
     ("codComp", pyStrip (pyOrEmpty (dget comp "codComp"))),
     ("numeroSerie", pyStrip (pyOrEmpty (dget comp "numeroSerie"))),
     ("numero", pyStrip (pyOrEmpty (dget comp "numero"))),
     ("fechaEmision", pyStrip (pyOrEmpty (dget comp "fechaEmision")))]
  let monto := pyStrip (pyOrEmpty (dget comp "monto"))
  if monto = "" then body else body ++ [("monto", monto)]

/-- One entry of `SunatClient.validar_lote`'s result list. -/
structure SunatRes where
  ok : Bool
  status : Int
  payload : Dict
  dataEmpleada : Dict
deriving DecidableEq

/-! ## Dispatcher (`dispatcher.py`) -/

/-- What the external collaborators return for one image: the SHA-256 of the
bytes (opaque), the `PreprocessMeta` that `process_image` produces on them,
and the JSON object the vision model answers for the processed image. -/
structure ImgData where
  sha : String
  meta : PMeta
  gptRaw : Dict

/-- An uploaded file, abstracted to its sniffed type together with the values
the external primitives would produce on its bytes:
* `empty`: `await file.read()` returned `b""`;
* `image d`: `guess_mime` said `image/*`;
* `pdf pages raster pd`: `guess_mime` said `application/pdf`; `pages` are the
  embedded texts `pdfplumber` yields (a raising `pdfplumber.open` is the
  `pages = []` case, exactly like a zero-page document), `raster` is
  `convert_from_bytes`'s page count (`none` = it raised), and `pd i` is the
  image data of rasterised page `i`;
* `other mime sha`: any other sniffed MIME type. -/
inductive FileContent
  | empty : FileContent
  | image : ImgData → FileContent
  | pdf : List String → Option Nat → (Nat → ImgData) → FileContent
  | other : String → String → FileContent

/-- An uploaded file. -/
structure UFile where
  filename : String
  content : FileContent

/-- An element of the response list (`ItemOK` / `ItemFail` of `dispatcher.py`,
merged into one record; absent keys are `none`).  The `quality` dict of an
`ItemOK` is modelled by the underlying `PMeta` (`none` for the empty dict of
PDF text items and for failure items, which carry no `quality` key). -/
structure Item where
  index : Nat
  estado : Bool
  origen : Origen
  quality : Option PMeta
  comp : Option Dict
  sunat : Option SunatRes
  mensaje : Option String
deriving DecidableEq

/-- `dispatcher._pipeline_image`: runs the vision extractor on the normalised
image and downgrades the item when any of the five required fields is empty. -/
def _pipeline_image (index : Nat) (filename : String) (d : ImgData) : Item :=
  let comp := gptNormalize d.gptRaw
  let origen : Origen := ⟨filename, some "image/*", none, some d.sha⟩
  let faltantes := missingFields comp
  if faltantes.isEmpty then
    ⟨index, true, origen, some d.meta, some comp, none, none⟩
  else
    ⟨index, false, origen, none, none, none,
      some ("campos_faltantes:" ++ joinComma faltantes)⟩

/-- Conversion of the `ok_text` page results to final items
(`_pipeline_pdf` lines 101–108); `n` is the running `len(items)`. -/
def okTextItems (fn : String) : Nat → List PdfItemResult → List Item
  | _, [] => []
  | n, e :: es =>
    ⟨n, true, ⟨fn, some "application/pdf", some e.pageIndex, none⟩,
      none, e.comp, none, none⟩ :: okTextItems fn (n + 1) es

/-- Body of the `to_fix` loop of `_pipeline_pdf` (lines 123–143) for one failed
page `e`, with `nPages` rasterised pages available and `n = len(items)`. -/
def _fix_item (fn : String) (nPages : Nat) (pd : Nat → ImgData) (n : Nat)
    (e : PdfItemResult) : Item :=
  if nPages ≤ e.pageIndex then
    ⟨n, false, ⟨fn, some "application/pdf", some e.pageIndex, none⟩,
      none, none, none, some (pyOr e.mensaje "pdf_pagina_no_disponible")⟩
  else
    let it := _pipeline_image n (fn ++ "#p" ++ toString e.pageIndex) (pd e.pageIndex)
    if it.estado then
      { it with origen :=
        { it.origen with mime := some "application/pdf", pageIndex := some e.pageIndex } }
    else it

/-- The `to_fix` loop of `_pipeline_pdf`. -/
def fixItems (fn : String) (nPages : Nat) (pd : Nat → ImgData) :
    Nat → List PdfItemResult → List Item
  | _, [] => []
  | n, e :: es => _fix_item fn nPages pd n e :: fixItems fn nPages pd (n + 1) es

/-- `dispatcher._pipeline_pdf`.  When `to_fix` is non-empty, `emb` is
non-empty too, so the final `if not emb and not items` check of the code can
only fire in the `to_fix = []` branch. -/
def _pipeline_pdf (fn : String) (pages : List String) (raster : Option Nat)
    (pd : Nat → ImgData) : List Item :=
  let emb := extract_from_pdf_bytes fn pages
  let to_fix := emb.filter (fun e => !e.estado)
  let ok_text := emb.filter (fun e => e.estado)
  let items1 := okTextItems fn 0 ok_text
  if to_fix.isEmpty then
    if emb.isEmpty && items1.isEmpty then
      [⟨0, false, ⟨fn, some "application/pdf", none, none⟩,
        none, none, none, some "pdf_lectura_fallida"⟩]
    else items1
  else
    match raster with
    | none =>
      items1 ++ [⟨items1.length, false, ⟨fn, some "application/pdf", none, none⟩,
        none, none, none, some "pdf_no_rasterizable"⟩]
    | some nPages => items1 ++ fixItems fn nPages pd items1.length to_fix

/-- `dispatcher.validar_lote`'s inner `handle_file` (the semaphore only limits
concurrency; it does not change any value). -/
def handle_file (f : UFile) : List Item :=
  match f.content with
  | .empty =>
    [⟨0, false, ⟨f.filename, none, none, none⟩, none, none, none, some "archivo_vacio"⟩]
  | .image d => [_pipeline_image 0 f.filename d]
  | .pdf pages raster pd => _pipeline_pdf f.filename pages raster pd
  | .other mime _ =>
    [⟨0, false, ⟨f.filename, some mime, none, none⟩, none, none, none,
      some "tipo_no_soportado"⟩]

/-- The merge loop of `validar_lote` (lines 229–233): append every item,
overwriting its `index` with the running length of the merged list. -/
def reindexFrom (n : Nat) : List Item → List Item
  | [] => []
  | i :: is => { i with index := n } :: reindexFrom (n + 1) is

/-- The splice loop of both endpoints (lines 188–192 / 241–245): walk the
items, giving each `estado = True` item the next validator response.
`none` models the `IndexError` raised when the responses run out; responses
beyond the number of successful items are silently ignored, as in the code. -/
def spliceSunat : List Item → List SunatRes → Option (List Item)
  | [], _ => some []
  | i :: is, rs =>
    if i.estado then
      match rs with
      | r :: rs' => (spliceSunat is rs').map (fun out => { i with sunat := some r } :: out)
      | [] => none
    else (spliceSunat is rs).map (fun out => i :: out)

/-- The validation pass shared verbatim by both endpoints: collect the
successful items' `comp` dicts, call the external validator once, splice the
responses back.  `validator` is the oracle for `SunatClient.validar_lote`
(network effects); a successful item always carries a `comp` (`getD []`
is never exercised).  A splice `IndexError` surfaces as a 500. -/
def runSunat (items : List Item) (validator : List Dict → List SunatRes) :
    Except Nat (List Item) :=
  let okItems := items.filter (fun i => i.estado)
  if okItems.isEmpty then .ok items
  else
    let comps := okItems.map (fun i => i.comp.getD [])
    match spliceSunat items (validator comps) with
    | some out => .ok out
    | none => .error 500

/-- Endpoint `POST /validar-lote`.  `asyncio.gather` returns the per-file
result lists in submission order regardless of completion order, so the merge
is a plain ordered join. -/
def validar_lote (files : List UFile) (validator : List Dict → List SunatRes) :
    Except Nat (List Item) :=
  match files with
  | [] => .error 400
  | _ => runSunat (reindexFrom 0 (files.map handle_file).flatten) validator

/-- Endpoint `POST /validar-comprobante` (single file): an empty upload raises
`HTTPException(400)`; otherwise the items keep the indices assigned by the
pipelines (no global reindex here). -/
def validar_comprobante (f : UFile) (validator : List Dict → List SunatRes) :
    Except Nat (List Item) :=
  match f.content with
  | .empty => .error 400
  | .image d => runSunat [_pipeline_image 0 f.filename d] validator
  | .pdf pages raster pd => runSunat (_pipeline_pdf f.filename pages raster pd) validator
  | .other mime sha =>
    runSunat [⟨0, false, ⟨f.filename, some mime, none, some sha⟩, none, none, none,
      some "tipo_no_soportado"⟩] validator

/-- An item with its `sunat` field blanked — the splice pass may change
nothing else. -/
def stripSunat (i : Item) : Item := { i with sunat := none }

/-- The content of an item other than its `index` and `sunat` fields — the
merge reindex and the validation splice may change nothing else. -/
def itemCore (i : Item) : Bool × Origen × Option PMeta × Option Dict × Option String :=
  (i.estado, i.origen, i.quality, i.comp, i.mensaje)

/-- The machine-readable failure-message tag prefixes the dispatcher can
actually produce (`campos_faltantes:` is a prefix; the rest are whole tags;
`pdf_sin_texto_embebido` and `campos_faltantes:` reach the output through the
`e.mensaje or "pdf_pagina_no_disponible"` propagation in `_pipeline_pdf`). -/
def actualTags : List String :=
  ["campos_faltantes:", "pdf_no_rasterizable", "pdf_sin_texto_embebido",
   "pdf_pagina_no_disponible", "pdf_lectura_fallida", "tipo_no_soportado",
   "archivo_vacio"]

/-- `taggedB m` = the failure message `m` starts with one of the tag prefixes
the code produces. -/
def taggedB (m : String) : Bool := actualTags.any (fun p => sHasPre m p)

/-- The tag prefixes named by the specification. -/
def claimedTags : List String :=
  ["missing_fields:", "pdf_no_rasterizable", "pdf_page_unavailable",
   "pdf_read_failed", "unsupported_type", "archivo_vacio"]

/-- `claimedTaggedB m` = the failure message `m` starts with one of the tag
prefixes the specification names. -/
def claimedTaggedB (m : String) : Bool := claimedTags.any (fun p => sHasPre m p)

/-! ## Concrete inputs used by witnesses and counterexamples -/

/-- A trivial `PreprocessMeta` value used as opaque image metadata. -/
def metaTriv : PMeta := ⟨[], false, none, none, none, none, none⟩

/-- The embedded page text of the spec's end-to-end scenario. -/
def goodTxt : String := "FACTURA F001-00012345 20123456789 01/02/2024 Total 150.00"

/-- A complete vision-extractor answer (all five required fields present). -/
def compFull : Dict :=
  [("numRuc", "20123456789"), ("codComp", "01"), ("numeroSerie", "F001"),
   ("numero", "1"), ("fechaEmision", "01/02/2024"), ("monto", "")]

/-- Rasterised-page data: every page gets the complete answer above. -/
def pdFull : Nat → ImgData := fun _ => ⟨"pagesha", metaTriv, compFull⟩

/-- A two-page PDF whose first page has no text layer and whose second page
carries the good embedded text. -/
def fileMixedPdf : UFile := ⟨"doc.pdf", .pdf ["", goodTxt] (some 2) pdFull⟩

/-- Validator oracle echoing each comp back with a 200. -/
def vEcho : List Dict → List SunatRes := fun comps =>
  comps.map (fun c => ⟨true, 200, [], c⟩)

/-- Validator oracle returning no responses. -/
def vNull : List Dict → List SunatRes := fun _ => []

/-- An upload with an unsupported MIME type. -/
def fileZip : UFile := ⟨"a.zip", .other "application/zip" "shaz"⟩

/-- The amount-heuristic example text from the spec. -/
def ex4 : String := "Subtotal 10.00 IGV 1.80 Total 11.80"

/-- The failure item produced for the unsupported upload `fileZip`. -/
def itemZip : Item :=
  ⟨0, false, ⟨"a.zip", some "application/zip", none, none⟩, none, none, none,
    some "tipo_no_soportado"⟩

/-- The failure item produced for an empty upload named `e.bin`. -/
def itemE : Item :=
  ⟨0, false, ⟨"e.bin", none, none, none⟩, none, none, none, some "archivo_vacio"⟩

/-- A successful item, as produced by the image pipeline. -/
def itemOkW : Item :=
  ⟨0, true, ⟨"a.png", some "image/*", none, some "s"⟩, some metaTriv, some compFull,
    none, none⟩

/-- A failed item, as produced for an unsupported upload. -/
def itemFailW : Item :=
  ⟨1, false, ⟨"b.bin", some "application/x-b", none, none⟩, none, none, none,
    some "tipo_no_soportado"⟩

/-- One validator response. -/
def resW : SunatRes := ⟨true, 200, [("estado", "1")], compFull⟩

/-- A 2000×1000 decodable image with no OSD result and no deskew foreground. -/
def envC5 : ProcEnv := ⟨some ⟨2000, 1000⟩, ⟨2000, 1000⟩, none, true, 0⟩

/-- Expected `process_image` output on `envC5`. -/
def outC5 : OutImg := ⟨1800, 900, "PNG"⟩

/-- Expected metadata on `envC5`. -/
def metaC5 : PMeta :=
  ⟨["enhance_basic", "adaptive_binarize"], false, none, none, none, some 2000, some 1000⟩

/-- An image whose deskew estimate is exactly 0.5 degrees. -/
def envC6 : ProcEnv := ⟨some ⟨100, 100⟩, ⟨100, 100⟩, none, false, 1 / 2⟩

/-- An image rotated 90° by OSD at confidence 4 and deskewed by 2°. -/
def envC6w : ProcEnv := ⟨some ⟨100, 40⟩, ⟨100, 40⟩, some (90, 4), false, 2⟩

/-- Expected `process_image` output on `envC6w`. -/
def outC6w : OutImg := ⟨40, 100, "PNG"⟩

/-- Expected metadata on `envC6w`. -/
def metaC6w : PMeta :=
  ⟨["rotate_" ++ toString (90 : Int), "enhance_basic", "adaptive_binarize",
      "deskew_" ++ toString ((2 : ℚ))],
    false, some 90, some 4, some 90, some 100, some 40⟩

/-- Bytes that PIL cannot decode as an image. -/
def envC7 : ProcEnv := ⟨none, ⟨1, 1⟩, none, true, 0⟩

/-- A decodable image for which the OSD sub-step raises. -/
def envC7w : ProcEnv := ⟨some ⟨10, 10⟩, ⟨10, 10⟩, none, true, 0⟩


/-! ## Helper lemmas -/

theorem falsy_eq_false_iff (o : Option String) :
    falsy o = false ↔ ∃ v, o = some v ∧ v ≠ "" := by
  cases o <;> simp [falsy]

theorem leadsWith_self_append (p t : List Char) : leadsWith p (p ++ t) = true := by
  induction p with
  | nil => rfl
  | cons c cs ih => simp [leadsWith, ih]

theorem sHasPre_append (p t : String) : sHasPre (p ++ t) p = true := by
  show leadsWith p.data (p ++ t).data = true
  have h : (p ++ t).data = p.data ++ t.data := by
    cases p
    cases t
    rfl
  rw [h]
  exact leadsWith_self_append p.data t.data

/-! ## Claim theorems -/

/-- C10: an empty upload makes the single-file endpoint `validar_comprobante`
raise HTTP 400 and produce no item, while the batch endpoint `validar_lote`
returns a result whose single item is the `archivo_vacio` failure item. -/
theorem C10_empty_file_divergence (fn : String) (v : List Dict → List SunatRes) :
    validar_comprobante ⟨fn, .empty⟩ v = .error 400 ∧
    validar_lote [⟨fn, .empty⟩] v =
      .ok [⟨0, false, ⟨fn, none, none, none⟩, none, none, none, some "archivo_vacio"⟩] :=
  ⟨rfl, rfl⟩

/-- C9: both field extractors only ever emit the six canonical keys — in
particular the issuer tax id sits under `numRuc` and neither `numRucE` nor
`numRucR` exists — so the request body built by `SunatClient._build_body`
(which reads `numRucE`) always carries an empty `numRuc`. -/
theorem C9_tax_id_never_in_body (txt : String) (raw : Dict) :
    dget (extractComp txt) "numRucE" = none ∧
    dget (extractComp txt) "numRucR" = none ∧
    dget (gptNormalize raw) "numRucE" = none ∧
    dget (gptNormalize raw) "numRucR" = none ∧
    dget (_build_body (extractComp txt)) "numRuc" = some "" ∧
    dget (_build_body (gptNormalize raw)) "numRuc" = some "" := by
  have hb : ∀ c : Dict, dget c "numRucE" = none →
      dget (_build_body c) "numRuc" = some "" := by
    intro c hc
    unfold _build_body
    simp only [hc]
    split
    · rfl
    · rfl
  refine ⟨rfl, rfl, rfl, rfl, hb _ rfl, hb _ rfl⟩

/-- C4: whenever `MONTO_RE.findall` finds at least one decimal-shaped value in
the page text, the extracted `monto` is the *last* match, normalised by
`_norm_monto` (comma turned into a dot). -/
theorem C4_amount_is_last_match (txt m : String)
    (hm : (montoFindall txt).getLast? = some m) :
    dget (extractComp txt) "monto" = some (_norm_monto m) := by
  unfold extractComp
  rw [hm]
  rfl

/-- Witness for C4 on the spec's own example text. -/
theorem C4_witness :
    (montoFindall ex4).getLast? = some "11.80" ∧
    dget (extractComp ex4) "monto" = some (_norm_monto "11.80") ∧
    _norm_monto "11.80" = "11.80" :=
  ⟨by decide, C4_amount_is_last_match ex4 "11.80" (by decide), by decide⟩

theorem mem_pdfPageResults {fn : String} {r : PdfItemResult} :
    ∀ {n : Nat} {pages : List String}, r ∈ pdfPageResults fn n pages →
      ∃ i txt, r = pageResult fn i txt := by
  intro n pages
  induction pages generalizing n with
  | nil => intro h; cases h
  | cons t ts ih =>
    intro h
    rcases List.mem_cons.mp h with h1 | h2
    · exact ⟨n, t, h1⟩
    · exact ih h2

/-- C2: a page result of the PDF local extractor is successful iff it carries
a fields dict in which all five required fields (`numRuc`, `codComp`,
`numeroSerie`, `numero`, `fechaEmision`) are non-empty; `monto` plays no role
in the success condition. -/
theorem C2_success_iff_required_fields (fn : String) (pages : List String)
    (r : PdfItemResult) (hr : r ∈ extract_from_pdf_bytes fn pages) :
    r.estado = true ↔
      ∃ c, r.comp = some c ∧ ∀ k ∈ requiredKeys, ∃ v, dget c k = some v ∧ v ≠ "" := by
  obtain ⟨i, txt, rfl⟩ := mem_pdfPageResults hr
  unfold pageResult
  dsimp only
  split
  · simp
  · split
    · rename_i hempty
      simp only []
      constructor
      · intro _
        refine ⟨extractComp txt, rfl, ?_⟩
        intro k hk
        rw [List.isEmpty_iff] at hempty
        rw [missingFields, List.filter_eq_nil_iff] at hempty
        have hf := hempty k hk
        rw [Bool.not_eq_true] at hf
        exact (falsy_eq_false_iff _).mp hf
      · intro _
        trivial
    · simp

/-- Witness for C2 on the spec's end-to-end page text. -/
theorem C2_witness :
    pageResult "f.pdf" 0 goodTxt ∈ extract_from_pdf_bytes "f.pdf" [goodTxt] ∧
    (pageResult "f.pdf" 0 goodTxt).estado = true ∧
    ((pageResult "f.pdf" 0 goodTxt).estado = true ↔
      ∃ c, (pageResult "f.pdf" 0 goodTxt).comp = some c ∧
        ∀ k ∈ requiredKeys, ∃ v, dget c k = some v ∧ v ≠ "") :=
  ⟨by decide, by decide,
    C2_success_iff_required_fields "f.pdf" [goodTxt] _ (by decide)⟩

/-- C8: under the validator's length contract (one response per successful
item), the splice pass succeeds, changes nothing but the `sunat` field of any
item, leaves every failed item entirely untouched, and gives the k-th
successful item (in list order) the k-th validator response. -/
theorem C8_splice_frame (items : List Item) (rs : List SunatRes)
    (hlen : rs.length = (items.filter (fun i => i.estado)).length) :
    ∃ out, spliceSunat items rs = some out ∧
      out.map stripSunat = items.map stripSunat ∧
      (out.filter (fun i => i.estado)).map (fun i => i.sunat) = rs.map some ∧
      (∀ k i, items.get? k = some i → i.estado = false → out.get? k = some i) := by
  induction items generalizing rs with
  | nil =>
    rcases rs with _ | ⟨r, rs'⟩
    · refine ⟨[], rfl, rfl, rfl, ?_⟩
      intro k i hk
      simp at hk
    · simp at hlen
  | cons i is ih =>
    by_cases hi : i.estado
    · rcases rs with _ | ⟨r, rs'⟩
      · rw [List.filter_cons_of_pos (by simpa using hi)] at hlen
        simp at hlen
      · rw [List.filter_cons_of_pos (by simpa using hi)] at hlen
        simp only [List.length_cons, Nat.succ_inj] at hlen
        obtain ⟨out', hout', hstrip', hsun', hfail'⟩ := ih rs' hlen
        refine ⟨{ i with sunat := some r } :: out', ?_, ?_, ?_, ?_⟩
        · simp [spliceSunat, hi, hout']
        · simp only [List.map_cons, hstrip']
          rfl
        · rw [List.filter_cons_of_pos (by simpa using hi)]
          simp only [List.map_cons, hsun']
        · intro k j hk hj
          rcases k with _ | k
          · simp only [List.get?_cons_zero, Option.some_inj] at hk
            rw [← hk] at hj
            rw [hi] at hj
            cases hj
          · simp only [List.get?_cons_succ] at hk ⊢
            exact hfail' k j hk hj
    · rw [List.filter_cons_of_neg (by simpa using hi)] at hlen
      obtain ⟨out', hout', hstrip', hsun', hfail'⟩ := ih rs hlen
      refine ⟨i :: out', ?_, ?_, ?_, ?_⟩
      · simp [spliceSunat, hi, hout']
      · simp only [List.map_cons, hstrip']
      · rw [List.filter_cons_of_neg (by simpa using hi)]
        exact hsun'
      · intro k j hk hj
        rcases k with _ | k
        · simp only [List.get?_cons_zero, Option.some_inj] at hk
          simp [← hk]
        · simp only [List.get?_cons_succ] at hk ⊢
          exact hfail' k j hk hj

/-- Witness for C8 on a concrete one-success one-failure item list. -/
theorem C8_witness :
    [resW].length = ([itemOkW, itemFailW].filter (fun i => i.estado)).length ∧
    (∃ out, spliceSunat [itemOkW, itemFailW] [resW] = some out ∧
      out.map stripSunat = [itemOkW, itemFailW].map stripSunat ∧
      (out.filter (fun i => i.estado)).map (fun i => i.sunat) = [resW].map some ∧
      (∀ k i, [itemOkW, itemFailW].get? k = some i → i.estado = false →
        out.get? k = some i)) :=
  ⟨by decide, C8_splice_frame [itemOkW, itemFailW] [resW] (by decide)⟩

theorem normalize_size_spec (img : PImage) (hpos : 0 < max img.h img.w) :
    (_normalize_size img).w ≤ img.w ∧ (_normalize_size img).h ≤ img.h ∧
    max (_normalize_size img).w (_normalize_size img).h ≤ 1800 ∧
    ∃ s : ℚ, 0 < s ∧ s ≤ 1 ∧
      (_normalize_size img).w = ⌊(img.w : ℚ) * s⌋₊ ∧
      (_normalize_size img).h = ⌊(img.h : ℚ) * s⌋₊ := by
  have hm0 : (0 : ℚ) < ((max img.h img.w : Nat) : ℚ) := by
    exact_mod_cast Nat.cast_pos.mpr hpos
  unfold _normalize_size
  dsimp only
  split
  · rename_i hc
    have hscale : min 1 ((1800 : ℚ) / ((max img.h img.w : Nat) : ℚ)) =
        (1800 : ℚ) / ((max img.h img.w : Nat) : ℚ) := by
      rcases min_cases 1 ((1800 : ℚ) / ((max img.h img.w : Nat) : ℚ)) with ⟨h1, _⟩ | ⟨h1, _⟩
      · rw [h1] at hc
        exact absurd hc (lt_irrefl 1)
      · exact h1
    rw [hscale] at hc ⊢
    have hsle1 : (1800 : ℚ) / ((max img.h img.w : Nat) : ℚ) ≤ 1 := le_of_lt hc
    have hspos : (0 : ℚ) < (1800 : ℚ) / ((max img.h img.w : Nat) : ℚ) := by positivity
    have hwle : (img.w : ℚ) * ((1800 : ℚ) / ((max img.h img.w : Nat) : ℚ)) ≤ (img.w : ℚ) :=
      mul_le_of_le_one_right (by positivity) hsle1
    have hhle : (img.h : ℚ) * ((1800 : ℚ) / ((max img.h img.w : Nat) : ℚ)) ≤ (img.h : ℚ) :=
      mul_le_of_le_one_right (by positivity) hsle1
    have cap : ∀ n : Nat, n ≤ max img.h img.w →
        ⌊(n : ℚ) * ((1800 : ℚ) / ((max img.h img.w : Nat) : ℚ))⌋₊ ≤ 1800 := by
      intro n hn
      have h1 : (n : ℚ) * ((1800 : ℚ) / ((max img.h img.w : Nat) : ℚ)) ≤
          ((max img.h img.w : Nat) : ℚ) * ((1800 : ℚ) / ((max img.h img.w : Nat) : ℚ)) := by
        have hcast : (n : ℚ) ≤ ((max img.h img.w : Nat) : ℚ) := by exact_mod_cast hn
        exact mul_le_mul_of_nonneg_right hcast (le_of_lt hspos)
      have h2 : ((max img.h img.w : Nat) : ℚ) * ((1800 : ℚ) / ((max img.h img.w : Nat) : ℚ)) =
          1800 := mul_div_cancel₀ 1800 (ne_of_gt hm0)
      calc ⌊(n : ℚ) * ((1800 : ℚ) / ((max img.h img.w : Nat) : ℚ))⌋₊
          ≤ ⌊((max img.h img.w : Nat) : ℚ) *
              ((1800 : ℚ) / ((max img.h img.w : Nat) : ℚ))⌋₊ := Nat.floor_le_floor h1
        _ = ⌊(1800 : ℚ)⌋₊ := by rw [h2]
        _ = 1800 := by norm_num
    refine ⟨?_, ?_, ?_, (1800 : ℚ) / ((max img.h img.w : Nat) : ℚ), hspos, hsle1, rfl, rfl⟩
    · calc ⌊(img.w : ℚ) * ((1800 : ℚ) / ((max img.h img.w : Nat) : ℚ))⌋₊
          ≤ ⌊(img.w : ℚ)⌋₊ := Nat.floor_le_floor hwle
        _ = img.w := Nat.floor_natCast _
    · calc ⌊(img.h : ℚ) * ((1800 : ℚ) / ((max img.h img.w : Nat) : ℚ))⌋₊
          ≤ ⌊(img.h : ℚ)⌋₊ := Nat.floor_le_floor hhle
        _ = img.h := Nat.floor_natCast _
    · exact max_le (cap img.w (le_max_right _ _)) (cap img.h (le_max_left _ _))
  · rename_i hc
    have hsmall : max img.h img.w ≤ 1800 := by
      by_contra hbig
      push_neg at hbig
      have hlt : (1800 : ℚ) / ((max img.h img.w : Nat) : ℚ) < 1 := by
        rw [div_lt_one hm0]
        exact_mod_cast hbig
      exact hc (lt_of_le_of_lt (min_le_right _ _) hlt)
    refine ⟨le_refl _, le_refl _, ?_, 1, one_pos, le_refl 1, ?_, ?_⟩
    · rw [max_comm]
      exact hsmall
    · rw [mul_one, Nat.floor_natCast]
    · rw [mul_one, Nat.floor_natCast]

theorem apply_exif_fst (eo i : PImage) (m : PMeta) : (_apply_exif eo i m).1 = eo := by
  unfold _apply_exif
  split <;> rfl

theorem apply_exif_snd_spec (eo i : PImage) (m : PMeta) :
    ∃ l1 ea, (_apply_exif eo i m).2 =
        { m with steps := m.steps ++ l1, exif_applied := ea } ∧
      (l1 = [] ∨ l1 = ["exif_transpose"]) := by
  obtain ⟨st, ex, oa, oc, rot, ww, hh⟩ := m
  unfold _apply_exif
  split
  · exact ⟨[], false, by simp, Or.inl rfl⟩
  · exact ⟨["exif_transpose"], true, by simp, Or.inr rfl⟩

theorem rotate_by_angle_spec (img : PImage) (a : Int) (m : PMeta)
    (ha : a = 90 ∨ a = 180 ∨ a = 270) :
    ((rotate_by_angle img a m).1 = img ∨ (rotate_by_angle img a m).1 = ⟨img.h, img.w⟩) ∧
    (rotate_by_angle img a m).2 = { m with
      rotated_final := some (m.rotated_final.getD 0 + a),
      steps := m.steps ++ ["rotate_" ++ toString a] } := by
  rcases ha with rfl | rfl | rfl
  · exact ⟨Or.inr (by simp [rotate_by_angle]), by simp [rotate_by_angle]⟩
  · exact ⟨Or.inl (by simp [rotate_by_angle]), by simp [rotate_by_angle]⟩
  · exact ⟨Or.inr (by simp [rotate_by_angle]), by simp [rotate_by_angle]⟩

theorem osdRotate_spec (osd : Option (Int × ℚ)) (img : PImage) (m : PMeta) :
    ((osdRotate osd img m).1 = img ∨ (osdRotate osd img m).1 = ⟨img.h, img.w⟩) ∧
    ∃ l2 rf, (osdRotate osd img m).2 =
        { m with steps := m.steps ++ l2, rotated_final := rf } ∧
      (l2 = [] ∨ ∃ a c, osd = some (a, c) ∧ 3 ≤ c ∧ (a = 90 ∨ a = 180 ∨ a = 270) ∧
        l2 = ["rotate_" ++ toString a]) ∧
      (osd = none → l2 = []) := by
  rcases osd with _ | ⟨a, c⟩
  · refine ⟨Or.inl rfl, [], m.rotated_final, ?_, Or.inl rfl, fun _ => rfl⟩
    obtain ⟨st, ex, oa, oc, rot, ww, hh⟩ := m
    simp [osdRotate]
  · unfold osdRotate
    dsimp only
    split
    · rename_i hcond
      obtain ⟨hc3, hangle, hne⟩ := hcond
      have ha : a = 90 ∨ a = 180 ∨ a = 270 := by
        rcases hangle with h | h | h | h
        · exact absurd h hne
        · exact Or.inl h
        · exact Or.inr (Or.inl h)
        · exact Or.inr (Or.inr h)
      obtain ⟨h1, h2⟩ := rotate_by_angle_spec img a m ha
      refine ⟨h1, ["rotate_" ++ toString a],
        some (m.rotated_final.getD 0 + a), ?_, ?_, ?_⟩
      · rw [h2]
      · exact Or.inr ⟨a, c, rfl, hc3, ha, rfl⟩
      · intro h
        cases h
    · refine ⟨Or.inl rfl, [], m.rotated_final, ?_, Or.inl rfl, fun h => by cases h⟩
      obtain ⟨st, ex, oa, oc, rot, ww, hh⟩ := m
      simp

theorem deskew_fst (img : PImage) (ce : Bool) (raw : ℚ) (m : PMeta) :
    (_deskew img ce raw m).1 = img := by
  unfold _deskew
  split
  · rfl
  · dsimp only
    split <;> rfl

theorem deskew_snd_spec (img : PImage) (ce : Bool) (raw : ℚ) (m : PMeta) :
    ∃ l3, (_deskew img ce raw m).2 = { m with steps := m.steps ++ l3 } ∧
      ((ce = false ∧ 1 / 2 ≤ |deskewAdj raw| ∧ |deskewAdj raw| ≤ 5 ∧
          l3 = ["deskew_" ++ toString (deskewAdj raw)]) ∨
        ((ce = true ∨ |deskewAdj raw| < 1 / 2 ∨ 5 < |deskewAdj raw|) ∧ l3 = [])) := by
  obtain ⟨st, ex, oa, oc, rot, ww, hh⟩ := m
  unfold _deskew
  split
  · rename_i hce
    exact ⟨[], by simp, Or.inr ⟨Or.inl hce, rfl⟩⟩
  · rename_i hce
    dsimp only
    split
    · rename_i hcond
      exact ⟨[], by simp, Or.inr ⟨Or.inr hcond, rfl⟩⟩
    · rename_i hcond
      push_neg at hcond
      exact ⟨["deskew_" ++ toString (deskewAdj raw)], by simp,
        Or.inl ⟨Bool.not_eq_true _ ▸ (by simpa using hce), hcond.1, hcond.2, rfl⟩⟩

theorem process_image_spec (env : ProcEnv) (i0 : PImage) (hd : env.decoded = some i0) :
    ∃ out meta pre,
      process_image env = .ok (out, meta) ∧
      (pre = env.exifOut ∨ pre = PImage.mk env.exifOut.h env.exifOut.w) ∧
      out.w = (_normalize_size pre).w ∧ out.h = (_normalize_size pre).h ∧
      out.format = "PNG" ∧
      meta.osd_angle = env.osd.map Prod.fst ∧
      meta.osd_conf = env.osd.map Prod.snd ∧
      ∃ l1 l2 l3,
        meta.steps = l1 ++ l2 ++ ["enhance_basic", "adaptive_binarize"] ++ l3 ∧
        (l1 = [] ∨ l1 = ["exif_transpose"]) ∧
        (l2 = [] ∨ ∃ a c, env.osd = some (a, c) ∧ 3 ≤ c ∧
          (a = 90 ∨ a = 180 ∨ a = 270) ∧ l2 = ["rotate_" ++ toString a]) ∧
        (env.osd = none → l2 = []) ∧
        ((env.coordsEmpty = false ∧ 1 / 2 ≤ |deskewAdj env.rawAngle| ∧
            |deskewAdj env.rawAngle| ≤ 5 ∧
            l3 = ["deskew_" ++ toString (deskewAdj env.rawAngle)]) ∨
          ((env.coordsEmpty = true ∨ |deskewAdj env.rawAngle| < 1 / 2 ∨
            5 < |deskewAdj env.rawAngle|) ∧ l3 = [])) := by
  obtain ⟨dec, eo, osd, ce, raw⟩ := env
  have hdec : dec = some i0 := hd
  subst hdec
  obtain ⟨l1, ea, hex2, hl1⟩ :=
    apply_exif_snd_spec eo i0 ⟨[], false, none, none, none, some i0.w, some i0.h⟩
  obtain ⟨hofst, l2, rf, hosnd, hl2, hl2none⟩ :=
    osdRotate_spec osd eo
      ⟨l1, ea, osd.map Prod.fst, osd.map Prod.snd, none, some i0.w, some i0.h⟩
  obtain ⟨l3, hdsk, hl3⟩ :=
    deskew_snd_spec
      (_normalize_size
        (osdRotate osd eo
          ⟨l1, ea, osd.map Prod.fst, osd.map Prod.snd, none, some i0.w, some i0.h⟩).1)
      ce raw
      ⟨((l1 ++ l2) ++ ["enhance_basic"]) ++ ["adaptive_binarize"], ea,
        osd.map Prod.fst, osd.map Prod.snd, rf, some i0.w, some i0.h⟩
  refine ⟨
    OutImg.mk
      (_normalize_size
        (osdRotate osd eo
          ⟨l1, ea, osd.map Prod.fst, osd.map Prod.snd, none,
            some i0.w, some i0.h⟩).1).w
      (_normalize_size
        (osdRotate osd eo
          ⟨l1, ea, osd.map Prod.fst, osd.map Prod.snd, none,
            some i0.w, some i0.h⟩).1).h
      "PNG",
    PMeta.mk (((((l1 ++ l2) ++ ["enhance_basic"]) ++ ["adaptive_binarize"]) ++ l3)) ea
      (osd.map Prod.fst) (osd.map Prod.snd) rf (some i0.w) (some i0.h),
    (osdRotate osd eo
      ⟨l1, ea, osd.map Prod.fst, osd.map Prod.snd, none, some i0.w, some i0.h⟩).1,
    ?heq, hofst, rfl, rfl, rfl, rfl, rfl, l1, l2, l3, ?hsteps, hl1, hl2, hl2none, hl3⟩
  case hsteps =>
    simp [List.append_assoc]
  case heq =>
    show process_image ⟨some i0, eo, osd, ce, raw⟩ = _
    dsimp only [process_image, _basic_enhance, _adaptive_binarize]
    rw [apply_exif_fst, hex2]
    dsimp only
    rw [List.nil_append]
    rw [hosnd]
    dsimp only
    rw [deskew_fst]
    rw [hdsk]

theorem process_image_ok_inj {env : ProcEnv} {out out' : OutImg} {meta meta' : PMeta}
    (h1 : process_image env = .ok (out, meta))
    (h2 : process_image env = .ok (out', meta')) : out = out' ∧ meta = meta' := by
  rw [h1] at h2
  simpa using h2

theorem sHasPre_deskew_rotate (x : String) : sHasPre ("deskew_" ++ x) "rotate_" = false := by
  obtain ⟨d⟩ := x
  rfl

theorem sHasPre_rotate_deskew (x : String) : sHasPre ("rotate_" ++ x) "deskew_" = false := by
  obtain ⟨d⟩ := x
  rfl

/-- C5: whenever `process_image` completes, its output is PNG-encoded with the
longer side at most 1800 px, and `_normalize_size` only ever downscales: both
sides shrink by one common factor `s ≤ 1` (aspect ratio preserved up to the
integer truncation the code performs), never an upscale. -/
theorem C5_png_bound_downscale (env : ProcEnv) (i0 : PImage) (out : OutImg) (meta : PMeta)
    (hdec : env.decoded = some i0) (hw : 0 < env.exifOut.w) (hh : 0 < env.exifOut.h)
    (hok : process_image env = .ok (out, meta)) :
    out.format = "PNG" ∧ max out.w out.h ≤ 1800 ∧
    ∀ img : PImage, 0 < max img.h img.w →
      (_normalize_size img).w ≤ img.w ∧ (_normalize_size img).h ≤ img.h ∧
      ∃ s : ℚ, 0 < s ∧ s ≤ 1 ∧
        (_normalize_size img).w = ⌊(img.w : ℚ) * s⌋₊ ∧
        (_normalize_size img).h = ⌊(img.h : ℚ) * s⌋₊ := by
  obtain ⟨out', meta', pre, hok', hpre, hw', hh', hfmt, _, _, _⟩ :=
    process_image_spec env i0 hdec
  obtain ⟨rfl, rfl⟩ := process_image_ok_inj hok hok'
  have hpos : 0 < max pre.h pre.w := by
    rcases hpre with rfl | rfl
    · exact lt_of_lt_of_le hw (le_max_right _ _)
    · exact lt_of_lt_of_le hh (le_max_right _ _)
  refine ⟨hfmt, ?_, ?_⟩
  · obtain ⟨_, _, hcap, _⟩ := normalize_size_spec pre hpos
    rw [hw', hh']
    exact hcap
  · intro img hp
    obtain ⟨a1, a2, _, a4⟩ := normalize_size_spec img hp
    exact ⟨a1, a2, a4⟩

/-- Witness for C5 on a concrete 2000×1000 image. -/
theorem C5_witness :
    envC5.decoded = some ⟨2000, 1000⟩ ∧ 0 < envC5.exifOut.w ∧ 0 < envC5.exifOut.h ∧
    process_image envC5 = .ok (outC5, metaC5) ∧
    (outC5.format = "PNG" ∧ max outC5.w outC5.h ≤ 1800 ∧
      ∀ img : PImage, 0 < max img.h img.w →
        (_normalize_size img).w ≤ img.w ∧ (_normalize_size img).h ≤ img.h ∧
        ∃ s : ℚ, 0 < s ∧ s ≤ 1 ∧
          (_normalize_size img).w = ⌊(img.w : ℚ) * s⌋₊ ∧
          (_normalize_size img).h = ⌊(img.h : ℚ) * s⌋₊) :=
  ⟨rfl, by decide, by decide,
    by
      norm_num [process_image, _apply_exif, osdRotate, _basic_enhance, _normalize_size,
        _adaptive_binarize, _deskew, envC5, outC5, metaC5],
    C5_png_bound_downscale envC5 ⟨2000, 1000⟩ outC5 metaC5 rfl (by decide) (by decide)
      (by
        norm_num [process_image, _apply_exif, osdRotate, _basic_enhance, _normalize_size,
          _adaptive_binarize, _deskew, envC5, outC5, metaC5])⟩

/-- C6 counterexample: on an image whose estimated skew is exactly 0.5°, the
code applies the deskew correction (the step appears in `meta.steps`), yet
0.5 is not strictly greater than 0.5 — the claimed open lower bound (0.5°, 5°]
does not describe the code, whose test is `abs(angle) < 0.5 or abs(angle) > 5`,
i.e. the closed interval [0.5°, 5°]. -/
theorem C6_counterexample :
    (process_image envC6).map (fun r => r.2.steps) =
      .ok ["enhance_basic", "adaptive_binarize", "deskew_" ++ toString (deskewAdj envC6.rawAngle)] ∧
    deskewAdj envC6.rawAngle = 1 / 2 ∧ ¬(1 / 2 < deskewAdj envC6.rawAngle) := by
  refine ⟨?_, ?_, ?_⟩
  · norm_num [process_image, _apply_exif, osdRotate, _basic_enhance, _normalize_size,
      _adaptive_binarize, _deskew, deskewAdj, abs_of_nonneg, Except.map, envC6]
  · norm_num [deskewAdj, envC6]
  · norm_num [deskewAdj, envC6]

/-- C6 as amended: every rotation step recorded by the normalizer is one of
90/180/270 and happens only when OSD reported that angle with confidence at
least 3.0; the deskew correction step is applied exactly when the foreground
is non-empty and the adjusted skew estimate lies in the closed interval
[0.5°, 5°] (the code includes the 0.5° endpoint). -/
theorem C6_amended_rotation_deskew (env : ProcEnv) (i0 : PImage) (out : OutImg) (meta : PMeta)
    (hdec : env.decoded = some i0) (hok : process_image env = .ok (out, meta)) :
    (∀ s ∈ meta.steps, sHasPre s "rotate_" = true →
      ∃ a c, env.osd = some (a, c) ∧ 3 ≤ c ∧ (a = 90 ∨ a = 180 ∨ a = 270) ∧
        s = "rotate_" ++ toString a) ∧
    ((∃ s ∈ meta.steps, sHasPre s "deskew_" = true) ↔
      env.coordsEmpty = false ∧ 1 / 2 ≤ |deskewAdj env.rawAngle| ∧
        |deskewAdj env.rawAngle| ≤ 5) := by
  obtain ⟨out', meta', pre, hok', _, _, _, _, _, _, l1, l2, l3, hsteps, hl1, hl2, _, hl3⟩ :=
    process_image_spec env i0 hdec
  obtain ⟨rfl, rfl⟩ := process_image_ok_inj hok hok'
  constructor
  · intro s hs hpre
    rw [hsteps] at hs
    simp only [List.mem_append] at hs
    rcases hs with ((h1 | h2) | h3) | h4
    · rcases hl1 with rfl | rfl
      · cases h1
      · have h : s = "exif_transpose" := by simpa using h1
        rw [h] at hpre
        exact absurd hpre (by decide)
    · rcases hl2 with rfl | ⟨a, c, hosd, hc, ha, rfl⟩
      · cases h2
      · have h : s = "rotate_" ++ toString a := by simpa using h2
        exact ⟨a, c, hosd, hc, ha, h⟩
    · have h : s = "enhance_basic" ∨ s = "adaptive_binarize" := by simpa using h3
      rcases h with rfl | rfl
      · exact absurd hpre (by decide)
      · exact absurd hpre (by decide)
    · rcases hl3 with ⟨_, _, _, rfl⟩ | ⟨_, rfl⟩
      · have h : s = "deskew_" ++ toString (deskewAdj env.rawAngle) := by simpa using h4
        rw [h, sHasPre_deskew_rotate] at hpre
        cases hpre
      · cases h4
  · constructor
    · rintro ⟨s, hs, hpre⟩
      rw [hsteps] at hs
      simp only [List.mem_append] at hs
      rcases hs with ((h1 | h2) | h3) | h4
      · rcases hl1 with rfl | rfl
        · cases h1
        · have h : s = "exif_transpose" := by simpa using h1
          rw [h] at hpre
          exact absurd hpre (by decide)
      · rcases hl2 with rfl | ⟨a, c, _, _, _, rfl⟩
        · cases h2
        · have h : s = "rotate_" ++ toString a := by simpa using h2
          rw [h, sHasPre_rotate_deskew] at hpre
          cases hpre
      · have h : s = "enhance_basic" ∨ s = "adaptive_binarize" := by simpa using h3
        rcases h with rfl | rfl
        · exact absurd hpre (by decide)
        · exact absurd hpre (by decide)
      · rcases hl3 with ⟨hce, hlo, hhi, rfl⟩ | ⟨_, rfl⟩
        · exact ⟨hce, hlo, hhi⟩
        · cases h4
    · rintro ⟨hce, hlo, hhi⟩
      rcases hl3 with ⟨_, _, _, rfl⟩ | ⟨halt, rfl⟩
      · refine ⟨"deskew_" ++ toString (deskewAdj env.rawAngle), ?_, sHasPre_append _ _⟩
        rw [hsteps]
        simp
      · rcases halt with h | h | h
        · rw [hce] at h
          cases h
        · exact absurd hlo (not_le.mpr h)
        · exact absurd hhi (not_le.mpr h)

/-- Witness for C6 on an image rotated 90° by OSD (confidence 4) and
deskewed by 2°. -/
theorem C6_witness :
    envC6w.decoded = some ⟨100, 40⟩ ∧
    process_image envC6w = .ok (outC6w, metaC6w) ∧
    ((∀ s ∈ metaC6w.steps, sHasPre s "rotate_" = true →
      ∃ a c, envC6w.osd = some (a, c) ∧ 3 ≤ c ∧ (a = 90 ∨ a = 180 ∨ a = 270) ∧
        s = "rotate_" ++ toString a) ∧
    ((∃ s ∈ metaC6w.steps, sHasPre s "deskew_" = true) ↔
      envC6w.coordsEmpty = false ∧ 1 / 2 ≤ |deskewAdj envC6w.rawAngle| ∧
        |deskewAdj envC6w.rawAngle| ≤ 5)) :=
  ⟨rfl,
    by
      norm_num [process_image, _apply_exif, osdRotate, rotate_by_angle, _basic_enhance,
        _normalize_size, _adaptive_binarize, _deskew, deskewAdj, abs_of_nonneg,
        envC6w, outC6w, metaC6w],
    C6_amended_rotation_deskew envC6w ⟨100, 40⟩ outC6w metaC6w rfl
      (by
        norm_num [process_image, _apply_exif, osdRotate, rotate_by_angle, _basic_enhance,
          _normalize_size, _adaptive_binarize, _deskew, deskewAdj, abs_of_nonneg,
          envC6w, outC6w, metaC6w])⟩

/-- C7 counterexample: on bytes that PIL cannot decode, `process_image`
raises (`Image.open` is outside any try/except), so the normalizer does not
return a (PNG, metadata) pair for every byte input. -/
theorem C7_counterexample :
    process_image envC7 = .error "cannot identify image file" := rfl

/-- C7 as amended: for every input whose bytes PIL can decode as an image,
`process_image` returns a pair, and a failing OSD sub-step is skipped: the
OSD metadata stays absent and no rotation step is recorded in `meta.steps`. -/
theorem C7_amended_no_fatal_after_decode (env : ProcEnv) (i0 : PImage)
    (hdec : env.decoded = some i0) :
    ∃ out meta, process_image env = .ok (out, meta) ∧
      (env.osd = none → meta.osd_angle = none ∧ meta.osd_conf = none ∧
        ∀ s ∈ meta.steps, sHasPre s "rotate_" = false) := by
  obtain ⟨out, meta, pre, hok, _, _, _, _, hoa, hoc, l1, l2, l3, hsteps, hl1, hl2, hl2none, hl3⟩ :=
    process_image_spec env i0 hdec
  refine ⟨out, meta, hok, ?_⟩
  intro hnone
  refine ⟨by rw [hoa, hnone]; rfl, by rw [hoc, hnone]; rfl, ?_⟩
  intro s hs
  rw [hsteps, hl2none hnone] at hs
  simp only [List.mem_append] at hs
  rcases hs with ((h1 | h2) | h3) | h4
  · rcases hl1 with rfl | rfl
    · cases h1
    · have h : s = "exif_transpose" := by simpa using h1
      rw [h]
      decide
  · cases h2
  · have h : s = "enhance_basic" ∨ s = "adaptive_binarize" := by simpa using h3
    rcases h with rfl | rfl
    · decide
    · decide
  · rcases hl3 with ⟨_, _, _, rfl⟩ | ⟨_, rfl⟩
    · have h : s = "deskew_" ++ toString (deskewAdj env.rawAngle) := by simpa using h4
      rw [h, sHasPre_deskew_rotate]
    · cases h4

/-- Witness for C7 on a decodable 10×10 image whose OSD call raises. -/
theorem C7_witness :
    envC7w.decoded = some ⟨10, 10⟩ ∧
    (∃ out meta, process_image envC7w = .ok (out, meta) ∧
      (envC7w.osd = none → meta.osd_angle = none ∧ meta.osd_conf = none ∧
        ∀ s ∈ meta.steps, sHasPre s "rotate_" = false)) :=
  ⟨rfl, C7_amended_no_fatal_after_decode envC7w ⟨10, 10⟩ rfl⟩

theorem stripSunat_estado (i : Item) : (stripSunat i).estado = i.estado := rfl

theorem stripSunat_mensaje (i : Item) : (stripSunat i).mensaje = i.mensaje := rfl

theorem itemCore_stripSunat (i : Item) : itemCore (stripSunat i) = itemCore i := rfl

theorem spliceSunat_strip : ∀ (items : List Item) (rs : List SunatRes) (out : List Item),
    spliceSunat items rs = some out → out.map stripSunat = items.map stripSunat := by
  intro items
  induction items with
  | nil =>
    intro rs out h
    have h' : ([] : List Item) = out := Option.some.inj h
    subst h'
    rfl
  | cons i is ih =>
    intro rs out h
    by_cases hi : i.estado
    · cases rs with
      | nil => simp [spliceSunat, hi] at h
      | cons r rs' =>
        simp only [spliceSunat, hi, if_true] at h
        cases hsp : spliceSunat is rs' with
        | none => rw [hsp] at h; cases h
        | some out' =>
          rw [hsp] at h
          simp only [Option.map_some'] at h
          have h' := Option.some.inj h
          subst h'
          rw [List.map_cons, List.map_cons, ih _ _ hsp]
          congr 1
          simp [stripSunat, hi]
    · simp only [spliceSunat, if_neg hi] at h
      cases hsp : spliceSunat is rs with
      | none => rw [hsp] at h; cases h
      | some out' =>
        rw [hsp] at h
        simp only [Option.map_some'] at h
        have h' := Option.some.inj h
        subst h'
        rw [List.map_cons, List.map_cons, ih _ _ hsp]

theorem runSunat_strip (items : List Item) (v : List Dict → List SunatRes)
    (out : List Item) (h : runSunat items v = .ok out) :
    out.map stripSunat = items.map stripSunat := by
  unfold runSunat at h
  dsimp only at h
  split at h
  · obtain rfl : items = out := Except.ok.inj h
    rfl
  · split at h
    · rename_i out' hsp
      obtain rfl : out' = out := Except.ok.inj h
      exact spliceSunat_strip _ _ _ hsp
    · cases h

theorem reindexFrom_get? : ∀ (l : List Item) (n k : Nat) (i : Item),
    (reindexFrom n l).get? k = some i → i.index = n + k := by
  intro l
  induction l with
  | nil =>
    intro n k i h
    cases h
  | cons j js ih =>
    intro n k i h
    cases k with
    | zero =>
      obtain rfl : { j with index := n } = i := Option.some.inj h
      rfl
    | succ k' =>
      have := ih (n + 1) k' i h
      omega

theorem reindexFrom_map_itemCore : ∀ (n : Nat) (l : List Item),
    (reindexFrom n l).map itemCore = l.map itemCore := by
  intro n l
  induction l generalizing n with
  | nil => rfl
  | cons j js ih => simp [reindexFrom, ih, itemCore]

/-- C1 counterexample: one mixed PDF (page 0 without a text layer, page 1
with good embedded text) makes the batch endpoint emit the item of page 1
*before* the item of page 0 — `_pipeline_pdf` puts all text-recovered pages
ahead of all rasterised fallback pages, so the final list is not ordered by
intra-file page order (the reindex `index = position` part does hold). -/
theorem C1_counterexample :
    (validar_lote [fileMixedPdf] vEcho).map
        (fun l => l.map (fun i => (i.index, i.estado, i.origen.pageIndex))) =
      .ok [(0, true, some 1), (1, true, some 0)] := by
  rfl

/-- C1 as amended: the merged list of the batch endpoint is the concatenation
of the per-file pipeline outputs in file submission order (within a PDF file:
text-recovered pages in page order first, then rasterised fallback pages in
page order — the pipeline's emission order, not the page order), and after the
global reindex the item at position k carries index = k. -/
theorem C1_amended_order_reindex (files : List UFile)
    (v : List Dict → List SunatRes) (out : List Item)
    (h : validar_lote files v = .ok out) :
    (∀ k i, out.get? k = some i → i.index = k) ∧
    out.map itemCore = ((files.map handle_file).flatten).map itemCore := by
  cases files with
  | nil => cases h
  | cons f fs =>
    have hstrip := runSunat_strip _ _ _ h
    have hfun : itemCore ∘ stripSunat = itemCore := funext itemCore_stripSunat
    constructor
    · intro k i hk
      have hmap := congrArg (fun l => l.get? k) hstrip
      simp only [List.get?_map, hk] at hmap
      cases hj : (reindexFrom 0 ((f :: fs).map handle_file).flatten).get? k with
      | none => rw [hj] at hmap; cases hmap
      | some j =>
        rw [hj] at hmap
        have hsij : stripSunat i = stripSunat j := by simpa using hmap
        have hidx := reindexFrom_get? _ 0 k j hj
        have hii : i.index = j.index := by
          have hc := congrArg Item.index hsij
          simpa [stripSunat] using hc
        omega
    · calc out.map itemCore
          = out.map (itemCore ∘ stripSunat) := by rw [hfun]
        _ = (out.map stripSunat).map itemCore := (List.map_map _ _ _).symm
        _ = ((reindexFrom 0 ((f :: fs).map handle_file).flatten).map stripSunat).map
              itemCore := by rw [hstrip]
        _ = (reindexFrom 0 ((f :: fs).map handle_file).flatten).map
              (itemCore ∘ stripSunat) := List.map_map _ _ _
        _ = (reindexFrom 0 ((f :: fs).map handle_file).flatten).map itemCore := by
              rw [hfun]
        _ = (((f :: fs).map handle_file).flatten).map itemCore :=
              reindexFrom_map_itemCore _ _

/-- Witness for C1 on a concrete one-file batch. -/
theorem C1_witness :
    validar_lote [⟨"e.bin", .empty⟩] vNull = .ok [itemE] ∧
    ((∀ k i, [itemE].get? k = some i → i.index = k) ∧
      [itemE].map itemCore =
        (([⟨"e.bin", .empty⟩].map handle_file).flatten).map itemCore) :=
  ⟨rfl, C1_amended_order_reindex [⟨"e.bin", .empty⟩] vNull [itemE] rfl⟩

theorem taggedB_of_campos (x : String) : taggedB ("campos_faltantes:" ++ x) = true := by
  simp only [taggedB, actualTags, List.any_cons, Bool.or_eq_true]
  exact Or.inl (sHasPre_append _ _)

theorem pageResult_mensaje_tag (fn : String) (i : Nat) (txt : String) (m : String)
    (hm : (pageResult fn i txt).mensaje = some m) : taggedB m = true := by
  unfold pageResult at hm
  dsimp only at hm
  split at hm
  · have h := Option.some.inj hm
    subst h
    decide
  · split at hm
    · cases hm
    · have h := Option.some.inj hm
      subst h
      exact taggedB_of_campos _

theorem pipeline_image_fail_tag (n : Nat) (fn : String) (d : ImgData)
    (hf : (_pipeline_image n fn d).estado = false) :
    ∃ m, (_pipeline_image n fn d).mensaje = some m ∧ taggedB m = true := by
  unfold _pipeline_image at hf ⊢
  dsimp only at hf ⊢
  by_cases hcond : (missingFields (gptNormalize d.gptRaw)).isEmpty = true
  · rw [if_pos hcond] at hf
    simp at hf
  · rw [if_neg hcond] at hf ⊢
    exact ⟨_, rfl, taggedB_of_campos _⟩

theorem fix_item_fail_tag (fn : String) (nP : Nat) (pd : Nat → ImgData) (n : Nat)
    (e : PdfItemResult)
    (he : ∀ m', e.mensaje = some m' → taggedB m' = true)
    (hf : (_fix_item fn nP pd n e).estado = false) :
    ∃ m, (_fix_item fn nP pd n e).mensaje = some m ∧ taggedB m = true := by
  unfold _fix_item at hf ⊢
  by_cases h1 : nP ≤ e.pageIndex
  · rw [if_pos h1]
    refine ⟨pyOr e.mensaje "pdf_pagina_no_disponible", rfl, ?_⟩
    cases hmn : e.mensaje with
    | none =>
      simp only [pyOr]
      decide
    | some s =>
      by_cases hs : s = ""
      · simp only [pyOr, hs, if_true]
        decide
      · simp only [pyOr, if_neg hs]
        exact he s hmn
  · rw [if_neg h1] at hf ⊢
    dsimp only at hf ⊢
    by_cases h2 :
        (_pipeline_image n (fn ++ "#p" ++ toString e.pageIndex) (pd e.pageIndex)).estado = true
    · rw [if_pos h2] at hf
      have hf' :
          (_pipeline_image n (fn ++ "#p" ++ toString e.pageIndex) (pd e.pageIndex)).estado =
            false := hf
      rw [h2] at hf'
      cases hf'
    · rw [if_neg h2] at hf ⊢
      exact pipeline_image_fail_tag _ _ _ hf

theorem mem_okTextItems (fn : String) : ∀ {n : Nat} {es : List PdfItemResult} {i : Item},
    i ∈ okTextItems fn n es → i.estado = true := by
  intro n es
  induction es generalizing n with
  | nil => intro i h; cases h
  | cons e es' ih =>
    intro i h
    rcases List.mem_cons.mp h with rfl | h2
    · rfl
    · exact ih h2

theorem mem_fixItems (fn : String) (nP : Nat) (pd : Nat → ImgData) :
    ∀ {n : Nat} {es : List PdfItemResult} {i : Item},
    i ∈ fixItems fn nP pd n es → ∃ k e, e ∈ es ∧ i = _fix_item fn nP pd k e := by
  intro n es
  induction es generalizing n with
  | nil => intro i h; cases h
  | cons e es' ih =>
    intro i h
    rcases List.mem_cons.mp h with rfl | h2
    · exact ⟨n, e, List.mem_cons_self _ _, rfl⟩
    · obtain ⟨k, e', he', hi'⟩ := ih h2
      exact ⟨k, e', List.mem_cons_of_mem _ he', hi'⟩

theorem pipeline_pdf_fail_tag (fn : String) (pages : List String) (raster : Option Nat)
    (pd : Nat → ImgData) (i : Item) (hi : i ∈ _pipeline_pdf fn pages raster pd)
    (hf : i.estado = false) : ∃ m, i.mensaje = some m ∧ taggedB m = true := by
  unfold _pipeline_pdf at hi
  dsimp only at hi
  split at hi
  · split at hi
    · have h : i = ⟨0, false, ⟨fn, some "application/pdf", none, none⟩,
          none, none, none, some "pdf_lectura_fallida"⟩ := by simpa using hi
      subst h
      exact ⟨_, rfl, by decide⟩
    · have ht := mem_okTextItems fn hi
      rw [ht] at hf
      cases hf
  · split at hi
    · rcases List.mem_append.mp hi with h1 | h2
      · have ht := mem_okTextItems fn h1
        rw [ht] at hf
        cases hf
      · have h : i = ⟨(okTextItems fn 0
            ((extract_from_pdf_bytes fn pages).filter (fun e => e.estado))).length, false,
            ⟨fn, some "application/pdf", none, none⟩, none, none, none,
            some "pdf_no_rasterizable"⟩ := by simpa using h2
        subst h
        exact ⟨_, rfl, by decide⟩
    · rcases List.mem_append.mp hi with h1 | h2
      · have ht := mem_okTextItems fn h1
        rw [ht] at hf
        cases hf
      · obtain ⟨k, e, hel, rfl⟩ := mem_fixItems fn _ pd h2
        have hmem : e ∈ extract_from_pdf_bytes fn pages := List.mem_of_mem_filter hel
        obtain ⟨pi, txt, rfl⟩ := mem_pdfPageResults hmem
        exact fix_item_fail_tag _ _ _ _ _
          (fun m' hm' => pageResult_mensaje_tag _ _ _ _ hm') hf

theorem handle_file_fail_tag (f : UFile) (i : Item) (hi : i ∈ handle_file f)
    (hf : i.estado = false) : ∃ m, i.mensaje = some m ∧ taggedB m = true := by
  obtain ⟨fn, c⟩ := f
  cases c with
  | empty =>
    have h : i = ⟨0, false, ⟨fn, none, none, none⟩, none, none, none,
        some "archivo_vacio"⟩ := by simpa [handle_file] using hi
    subst h
    exact ⟨_, rfl, by decide⟩
  | image d =>
    have h : i = _pipeline_image 0 fn d := by simpa [handle_file] using hi
    subst h
    exact pipeline_image_fail_tag _ _ _ hf
  | pdf pages raster pd =>
    exact pipeline_pdf_fail_tag fn pages raster pd i hi hf
  | other mime sha =>
    have h : i = ⟨0, false, ⟨fn, some mime, none, none⟩, none, none, none,
        some "tipo_no_soportado"⟩ := by simpa [handle_file] using hi
    subst h
    exact ⟨_, rfl, by decide⟩

theorem mem_reindexFrom : ∀ {n : Nat} {l : List Item} {i : Item},
    i ∈ reindexFrom n l → ∃ j ∈ l, i.estado = j.estado ∧ i.mensaje = j.mensaje := by
  intro n l
  induction l generalizing n with
  | nil => intro i h; cases h
  | cons j js ih =>
    intro i h
    rcases List.mem_cons.mp h with rfl | h2
    · exact ⟨j, List.mem_cons_self _ _, rfl, rfl⟩
    · obtain ⟨j', hj', ha, hb⟩ := ih h2
      exact ⟨j', List.mem_cons_of_mem _ hj', ha, hb⟩

/-- C3 counterexample: an unsupported upload yields a failure item whose
message is the literal string `tipo_no_soportado`, which does not start with
any of the six tag prefixes the claim names (`missing_fields:`,
`pdf_no_rasterizable`, `pdf_page_unavailable`, `pdf_read_failed`,
`unsupported_type`, `archivo_vacio`) — the code's tags are the Spanish
strings, not the spec's English names. -/
theorem C3_counterexample :
    (validar_lote [fileZip] vNull).map
        (fun l => l.map (fun i => (i.estado, i.mensaje))) =
      .ok [(false, some "tipo_no_soportado")] ∧
    claimedTaggedB "tipo_no_soportado" = false :=
  ⟨rfl, by decide⟩

/-- C3 as amended: every failure item of a returned batch result has
`estado = false` and carries a message starting with one of the tag prefixes
the code actually produces: `campos_faltantes:`, `pdf_no_rasterizable`,
`pdf_sin_texto_embebido`, `pdf_pagina_no_disponible`, `pdf_lectura_fallida`,
`tipo_no_soportado`, `archivo_vacio`. -/
theorem C3_amended_failure_tags (files : List UFile)
    (v : List Dict → List SunatRes) (out : List Item)
    (h : validar_lote files v = .ok out) :
    ∀ i ∈ out, i.estado = false → ∃ m, i.mensaje = some m ∧ taggedB m = true := by
  cases files with
  | nil => cases h
  | cons f fs =>
    have hstrip := runSunat_strip _ _ _ h
    intro i hi hf
    have hmem : stripSunat i ∈
        (reindexFrom 0 ((f :: fs).map handle_file).flatten).map stripSunat := by
      rw [← hstrip]
      exact List.mem_map_of_mem _ hi
    obtain ⟨j, hj, hsj⟩ := List.mem_map.mp hmem
    have hest : j.estado = false := by
      have hc := congrArg Item.estado hsj
      simp only [stripSunat] at hc
      rw [hc]
      exact hf
    have hmsg : j.mensaje = i.mensaje := by
      have hc := congrArg Item.mensaje hsj
      simpa [stripSunat] using hc
    obtain ⟨j', hj', hest', hmsg'⟩ := mem_reindexFrom hj
    obtain ⟨lf, hlf, hjlf⟩ := List.mem_flatten.mp hj'
    obtain ⟨g, _, rfl⟩ := List.mem_map.mp hlf
    obtain ⟨m, hm, htag⟩ := handle_file_fail_tag g j' hjlf (by rw [← hest']; exact hest)
    refine ⟨m, ?_, htag⟩
    rw [← hmsg, hmsg', hm]

/-- Witness for C3 on a concrete unsupported upload. -/
theorem C3_witness :
    validar_lote [fileZip] vNull = .ok [itemZip] ∧
    itemZip ∈ [itemZip] ∧ itemZip.estado = false ∧
    ∃ m, itemZip.mensaje = some m ∧ taggedB m = true :=
  ⟨rfl, by decide, rfl,
    C3_amended_failure_tags [fileZip] vNull [itemZip] rfl itemZip (by decide) rfl⟩
